import Mathlib

/-!
Verification development for the rate-limited, cached crypto market-data
pipeline in `backend/main.py`.

The Python source is shallowly embedded: times and prices (Python floats)
become rationals, JSON `null` prices become `Option` values, raising code
becomes `Except`-valued functions, and the shared mutable rate-limiter
history becomes an inductively defined trace of grant events.  Python's
stable `sorted` is modelled by `List.insertionSort` (any two stable sorts
with the same comparator agree), and Python's `round(x, 2)` (half-to-even)
is modelled by `round2` below.
-/

namespace Rotator

/-! ## Definitions -/

/-! ### Rate limiter: `check_rate_limit`, main.py lines 52-72 -/

/-- Source constant `RATE_LIMIT_CALLS = 30` (calls per window). -/
def RATE_LIMIT_CALLS : ℕ := 30

/-- Source constant `RATE_LIMIT_WINDOW = 60` (seconds). -/
def RATE_LIMIT_WINDOW : ℚ := 60

/-- Pruning step of `check_rate_limit` (line 62): keep only timestamps
with `current_time - call_time < RATE_LIMIT_WINDOW`. -/
def prune (now : ℚ) (calls : List ℚ) : List ℚ :=
  calls.filter (fun c => decide (now - c < RATE_LIMIT_WINDOW))

/-- Grant histories reachable by concurrent callers of `check_rate_limit`.
Each grant appends `current_time` to the history; it can only happen when,
at that instant, the pruned history holds fewer than `RATE_LIMIT_CALLS`
timestamps (lines 62-64 and 71).  In the asyncio execution model the
prune/check/append block runs without a suspension point, so it is atomic;
the sleep on line 68 is followed by a full re-check (line 69), so every
append, in every interleaving of callers, is guarded by a same-instant
check.  The clock is assumed monotone across grants (`hmono`).  The code
keeps only the pruned list `last_calls` between calls; by `prune_prune`
below, checking the pruned full history is equivalent. -/
inductive GrantTrace : List ℚ → Prop
  | nil : GrantTrace []
  | grant (h : List ℚ) (t : ℚ) (hmono : ∀ x ∈ h, x ≤ t)
      (hok : (prune t h).length < RATE_LIMIT_CALLS)
      (prev : GrantTrace h) : GrantTrace (h ++ [t])

/-- Membership test for a trailing window `(s - 60, s]`. -/
def inWindow (s x : ℚ) : Bool :=
  decide (s - RATE_LIMIT_WINDOW < x) && decide (x ≤ s)

/-! ### Historical-series walk: `get_doge_history` lines 696-722; the same
loop appears verbatim in `get_top_meme_tokens` (lines 515-537 and 804-826)
and `get_tokens_historical_data` (lines 970-992). -/

/-- One raw quote from the provider payload.  `price` is
`quote["quote"]["USD"]["price"]`; `none` models a JSON `null` price. -/
structure Quote where
  timestamp : ℚ
  price : Option ℚ
deriving DecidableEq, Repr

/-- One output point of the walk (`price_history` entries). -/
structure PricePoint where
  timestamp : ℚ
  price : Option ℚ
  percent_change : ℚ
deriving DecidableEq, Repr

/-- Round-half-to-even of a rational to an integer, modelling Python
`round(x)` on exact values. -/
def pyRound (x : ℚ) : ℤ :=
  let f := Int.floor x
  let r := x - (f : ℚ)
  if r < 1 / 2 then f
  else if 1 / 2 < r then f + 1
  else if Even f then f else f + 1

/-- Python `round(x, 2)`. -/
def round2 (x : ℚ) : ℚ := (pyRound (x * 100) : ℚ) / 100

/-- Ordering used by `sorted(quotes, key=lambda x: x["timestamp"])`. -/
def tsLE (a b : Quote) : Prop := a.timestamp ≤ b.timestamp

instance : DecidableRel tsLE :=
  fun a b => inferInstanceAs (Decidable (a.timestamp ≤ b.timestamp))

instance : IsTotal Quote tsLE := ⟨fun a b => le_total a.timestamp b.timestamp⟩

instance : IsTrans Quote tsLE := ⟨fun _ _ _ => le_trans⟩

/-- Strict version of `tsLE`, used to compare sorted outputs. -/
def tsLT (a b : Quote) : Prop := a.timestamp < b.timestamp

instance : IsAntisymm Quote tsLT :=
  ⟨fun _ _ h1 h2 => absurd h2 (not_lt.mpr (le_of_lt h1))⟩

/-- Stable sort by timestamp, modelling `sorted(quotes, key=...)`. -/
def sortQuotes (qs : List Quote) : List Quote := List.insertionSort tsLE qs

/-- The percent-change loop of `get_doge_history` (lines 699-720).  `prev`
is the running `prev_price` (`none` initially and after a `null` price).
The loop body first reads the current price and computes
`(current - prev) / prev * 100`: a `null` current price with a numeric
`prev` raises `TypeError` (`None - float`), a numeric current price with
`prev == 0.0` raises `ZeroDivisionError`; either exception aborts the whole
walk, which is modelled by `Except.error`. -/
def walkQuotes : Option ℚ → List Quote → Except String (List PricePoint)
  | _, [] => Except.ok []
  | none, q :: rest =>
    match walkQuotes q.price rest with
    | Except.error e => Except.error e
    | Except.ok ps =>
      Except.ok ({ timestamp := q.timestamp, price := q.price,
                   percent_change := 0 } :: ps)
  | some p, q :: rest =>
    match q.price with
    | none => Except.error "TypeError"
    | some c =>
      if p = 0 then Except.error "ZeroDivisionError"
      else
        match walkQuotes (some c) rest with
        | Except.error e => Except.error e
        | Except.ok ps =>
          Except.ok ({ timestamp := q.timestamp, price := some c,
                       percent_change := round2 ((c - p) / p * 100) } :: ps)

/-- The full series transformation shared by `get_doge_history`,
`get_top_meme_tokens` and `get_tokens_historical_data`: sort the raw quotes
by timestamp, then run the percent-change loop with `prev_price = None`. -/
def processQuotes (qs : List Quote) : Except String (List PricePoint) :=
  walkQuotes none (sortQuotes qs)

/-- Relation between consecutive output points asserted by the spec:
the later point's `percent_change` is the rounded relative change of the
prices. -/
def pctRel (a b : PricePoint) : Prop :=
  b.percent_change = round2 ((b.price.getD 0 - a.price.getD 0) / a.price.getD 0 * 100)

/-! ### Batched token-info fetch: `batch_get_token_info`, lines 74-117 -/

/-- Token metadata value stored in `TOKEN_INFO_CACHE` and returned in the
result mapping (the provider's per-token data object, always a non-empty
dict in Python, hence always truthy). -/
structure TokenInfo where
  symbol : String
  name : String
deriving DecidableEq, Repr

/-- Observable outcome of one `batch_get_token_info` call: the returned
mapping, the token-info cache afterwards, the number of rate-limiter
permits acquired (`await check_rate_limit()` on line 97 runs once per
batch), and the provider batch calls issued.  Mappings are association
lists; `List.lookup` finds the most recently prepended binding, matching
dict overwrite. -/
structure FetchState where
  result : List (ℤ × TokenInfo)
  cache : List (ℤ × TokenInfo)
  permits : ℕ
  calls : List (List ℤ)
deriving DecidableEq, Repr

/-- Fuel-indexed chunking; fuel is the list length, enough for any
positive chunk size. -/
def chunkAux (n : ℕ) : ℕ → List ℤ → List (List ℤ)
  | 0, _ => []
  | _, [] => []
  | fuel + 1, l => l.take n :: chunkAux n fuel (l.drop n)

/-- Line 94: `[uncached_ids[i:i + BATCH_SIZE] for i in range(0, len(uncached_ids), BATCH_SIZE)]`. -/
def chunk (n : ℕ) (l : List ℤ) : List (List ℤ) := chunkAux n l.length l

/-- Body of the per-batch loop (lines 96-115): acquire a permit, issue the
provider call; on success merge the returned pairs into the result and the
cache, on failure (`except httpx.HTTPError`) log and continue. -/
def runBatch (provider : List ℤ → Except Unit (List (ℤ × TokenInfo)))
    (st : FetchState) (batch : List ℤ) : FetchState :=
  match provider batch with
  | Except.error _ =>
    { st with permits := st.permits + 1, calls := st.calls ++ [batch] }
  | Except.ok pairs =>
    { result := st.result ++ pairs,
      cache := pairs ++ st.cache,
      permits := st.permits + 1,
      calls := st.calls ++ [batch] }

/-- Cache hits of the requested ids, in request order (lines 80-87). -/
def cachedHits (token_ids : List ℤ) (cache : List (ℤ × TokenInfo)) :
    List (ℤ × TokenInfo) :=
  token_ids.filterMap (fun i => (cache.lookup i).map (fun v => (i, v)))

/-- Ids missing from the cache, in request order (lines 80-87). -/
def uncachedIds (token_ids : List ℤ) (cache : List (ℤ × TokenInfo)) : List ℤ :=
  token_ids.filter (fun i => (cache.lookup i).isNone)

/-- Shallow embedding of `batch_get_token_info` (lines 74-117): empty
request short-circuits (line 76), fully cached request short-circuits
(line 89), otherwise the uncached ids are chunked into batches of 100 and
fetched through the rate limiter, tolerating per-batch failure. -/
def batch_get_token_info (token_ids : List ℤ) (cache : List (ℤ × TokenInfo))
    (provider : List ℤ → Except Unit (List (ℤ × TokenInfo))) : FetchState :=
  if token_ids.isEmpty then ⟨[], cache, 0, []⟩
  else
    let hits := cachedHits token_ids cache
    let uncached := uncachedIds token_ids cache
    if uncached.isEmpty then ⟨hits, cache, 0, []⟩
    else (chunk 100 uncached).foldl (runBatch provider) ⟨hits, cache, 0, []⟩

/-! ### Category resolution: `get_top_tokens_by_category`, lines 848-899 -/

/-- One provider category (`{"id": ..., "name": ...}`). -/
structure Category where
  id : String
  name : String
deriving DecidableEq, Repr

/-- Python `str.lower()` on the character sequence (kernel-computable,
unlike `String.toLower`). -/
def pyLower (s : String) : String := String.mk (s.data.map Char.toLower)

/-- Category lookup of `get_top_tokens_by_category` (lines 853-875): check
`CATEGORY_CACHE` under the lower-cased name; on miss, scan the provider's
category list for the first entry whose lower-cased name equals the
lower-cased request; raise `HTTPException(404)` if neither finds one. -/
def resolveCategory (categoryName : String) (cache : List (String × Category))
    (cats : List Category) : Except ℕ Category :=
  match cache.lookup (pyLower categoryName) with
  | some c => Except.ok c
  | none =>
    match cats.find? (fun cat => pyLower cat.name == pyLower categoryName) with
    | some c => Except.ok c
    | none => Except.error 404

/-! ### Category historical series: `get_category_historical`, lines 195-284 -/

/-- One persisted `historical_data` document. -/
structure StoredPoint where
  category_id : String
  timestamp : ℚ
  market_cap : ℚ
  volume_24h : ℚ
  market_cap_change_24h : ℚ
  volume_change_24h : ℚ
deriving DecidableEq, Repr

/-- One provider point value object; `none` fields model missing keys.
`market_cap.USD` and `volume_24h.USD` are required (a missing key raises
inside the per-point `try`, skipping the point, lines 244-256); the two
change fields default to `0` via `.get(..., {}).get("USD", 0)`. -/
structure PointValues where
  market_cap_usd : Option ℚ
  volume_24h_usd : Option ℚ
  market_cap_change_24h_usd : Option ℚ
  volume_change_24h_usd : Option ℚ
deriving DecidableEq, Repr

/-- Per-point processing of lines 244-256. -/
def processPoint (category_id : String) (p : ℤ × PointValues) : Option StoredPoint :=
  match p.2.market_cap_usd, p.2.volume_24h_usd with
  | some mc, some vol =>
    some { category_id := category_id, timestamp := (p.1 : ℚ), market_cap := mc,
           volume_24h := vol,
           market_cap_change_24h := p.2.market_cap_change_24h_usd.getD 0,
           volume_change_24h := p.2.volume_change_24h_usd.getD 0 }
  | _, _ => none

/-- Ordering on stored points by timestamp. -/
def spLE (a b : StoredPoint) : Prop := a.timestamp ≤ b.timestamp

instance : DecidableRel spLE :=
  fun a b => inferInstanceAs (Decidable (a.timestamp ≤ b.timestamp))

instance : IsTotal StoredPoint spLE := ⟨fun a b => le_total a.timestamp b.timestamp⟩

instance : IsTrans StoredPoint spLE := ⟨fun _ _ _ => le_trans⟩

/-- Freshness filter of the Mongo query on lines 209-212: same category and
`timestamp >= utcnow() - timedelta(hours=1)`. -/
def freshPred (category_id : String) (now : ℚ) (d : StoredPoint) : Bool :=
  d.category_id == category_id && decide (now - 3600 ≤ d.timestamp)

/-- Deletion window of lines 264-267: same category and
`timestamp >= utcnow() - timedelta(days=days)`. -/
def windowPred (category_id : String) (days : ℤ) (now : ℚ) (d : StoredPoint) : Bool :=
  d.category_id == category_id && decide (now - (days : ℚ) * 86400 ≤ d.timestamp)

/-- Observable outcome of one `get_category_historical` call. -/
structure CatHistOutcome where
  response : List StoredPoint
  store : List StoredPoint
  providerCalls : ℕ
deriving DecidableEq, Repr

/-- Shallow embedding of `get_category_historical` (lines 195-284): 404 if
the category id is not in the stored category list (lines 200-204); return
the persisted points no older than one hour, sorted by timestamp, without
any provider call, when there are any (lines 208-216); otherwise one
rate-limited provider call, 404 on an empty point payload (lines 236-238),
per-point processing with skip-on-error, sort by timestamp, and — only when
some point survived — delete-and-reinsert of the persisted window
(lines 242-273).  A provider transport error propagates with its status
(lines 275-281). -/
def get_category_historical (category_id : String) (days : ℤ) (now : ℚ)
    (categories : List Category) (store : List StoredPoint)
    (provider : Except ℕ (List (ℤ × PointValues))) : Except ℕ CatHistOutcome :=
  match categories.find? (fun c => c.id == category_id) with
  | none => Except.error 404
  | some _ =>
    let cached := store.filter (freshPred category_id now)
    if cached.isEmpty then
      match provider with
      | Except.error code => Except.error code
      | Except.ok points =>
        if points.isEmpty then Except.error 404
        else
          let processed := points.filterMap (processPoint category_id)
          let sortedHist := List.insertionSort spLE processed
          if processed.isEmpty then
            Except.ok { response := sortedHist, store := store, providerCalls := 1 }
          else
            Except.ok { response := sortedHist,
                        store := store.filter (fun d => !(windowPred category_id days now d))
                                  ++ sortedHist,
                        providerCalls := 1 }
    else
      Except.ok { response := List.insertionSort spLE cached, store := store,
                  providerCalls := 0 }

/-! ## Theorems -/

/-- Pruning at a later instant subsumes pruning at an earlier one.  This is
what makes the full-history trace `GrantTrace` equivalent to the code,
which keeps only the pruned list `last_calls` between calls: re-pruning the
already pruned list at a later time gives the same result as pruning the
full history of grants. -/
theorem prune_prune (t t' : ℚ) (h : List ℚ) (hle : t' ≤ t) :
    prune t (prune t' h) = prune t h := by
  induction h with
  | nil => rfl
  | cons a l ih =>
    by_cases h1 : t - a < RATE_LIMIT_WINDOW
    · have h2 : t' - a < RATE_LIMIT_WINDOW := by
        have : t' - a ≤ t - a := by linarith
        linarith
      simp only [prune, List.filter_cons] at ih ⊢
      simp only [decide_eq_true_eq, h1, h2, if_true, List.filter_cons]
      simpa [prune, h1] using ih
    · by_cases h2 : t' - a < RATE_LIMIT_WINDOW
      · simp only [prune, List.filter_cons, decide_eq_true_eq, h1, h2,
          if_true, if_false] at ih ⊢
        simpa [prune, h1] using ih
      · simp only [prune, List.filter_cons, decide_eq_true_eq, h1, h2,
          if_false] at ih ⊢
        simpa [prune] using ih

/-- Claim C1: for every sequence of `check_rate_limit` grants, in every
interleaving of concurrent callers, no trailing 60-second window contains
more than 30 grant instants. -/
theorem rate_limit_window_bound (h : List ℚ) (ht : GrantTrace h) (s : ℚ) :
    h.countP (inWindow s) ≤ RATE_LIMIT_CALLS := by
  induction ht with
  | nil => simp [RATE_LIMIT_CALLS]
  | grant h t hmono hok _ ih =>
    rw [List.countP_append]
    by_cases hw : inWindow s t = true
    · have hts : t ≤ s ∧ s - RATE_LIMIT_WINDOW < t := by
        constructor
        · exact of_decide_eq_true (Bool.and_elim_right hw)
        · exact of_decide_eq_true (Bool.and_elim_left hw)
      have hsub : h.countP (inWindow s) ≤ (prune t h).length := by
        rw [prune, ← List.countP_eq_length_filter]
        apply List.countP_mono_left
        intro x _ hxw
        have hx1 : s - RATE_LIMIT_WINDOW < x :=
          of_decide_eq_true (Bool.and_elim_left hxw)
        have hx2 : x ≤ s := of_decide_eq_true (Bool.and_elim_right hxw)
        have : t - x < RATE_LIMIT_WINDOW := by
          have := hts.1
          linarith
        exact decide_eq_true this
      have h1 : List.countP (inWindow s) [t] ≤ 1 := by
        simp [List.countP_cons, hw]
      have h2 : h.countP (inWindow s) ≤ RATE_LIMIT_CALLS - 1 := by
        omega
      have h30 : 1 ≤ RATE_LIMIT_CALLS := by simp [RATE_LIMIT_CALLS]
      omega
    · have : List.countP (inWindow s) [t] = 0 := by
        simp only [List.countP_cons, List.countP_nil, hw]
        simp [Bool.not_eq_true] at hw
        simp [hw]
      omega

/-- Witness for C1 at a concrete two-grant trace. -/
theorem rate_limit_window_bound_witness :
    GrantTrace [0, 30] ∧ List.countP (inWindow 45) [0, 30] ≤ RATE_LIMIT_CALLS := by
  have h0 : GrantTrace [] := GrantTrace.nil
  have h1 : GrantTrace [0] := by
    have := GrantTrace.grant [] 0 (by simp)
      (by simp [prune, RATE_LIMIT_CALLS]) h0
    simpa using this
  have h2 : GrantTrace [0, 30] := by
    have := GrantTrace.grant [0] 30
      (by intro x hx; simp at hx; simp [hx])
      (by norm_num [prune, RATE_LIMIT_WINDOW, RATE_LIMIT_CALLS]) h1
    simpa using this
  exact ⟨h2, rate_limit_window_bound [0, 30] h2 45⟩

/-- A successful walk emits exactly one output point per input quote, with
the same timestamps in the same order.  No hypothesis on the prices is
needed: whenever the loop finishes without raising, it has appended one
point per quote. -/
theorem walk_map_timestamp (l : List Quote) : ∀ (prev : Option ℚ) (ps : List PricePoint),
    walkQuotes prev l = Except.ok ps →
    ps.map PricePoint.timestamp = l.map Quote.timestamp := by
  induction l with
  | nil =>
    intro prev ps hok
    cases prev <;> simp only [walkQuotes] at hok <;>
      simpa using (Except.ok.inj hok).symm
  | cons q rest ih =>
    intro prev ps hok
    cases prev with
    | none =>
      simp only [walkQuotes] at hok
      cases hrec : walkQuotes q.price rest with
      | error e => rw [hrec] at hok; cases hok
      | ok ps1 =>
        rw [hrec] at hok
        have := (Except.ok.inj hok).symm
        subst this
        simpa using ih q.price ps1 hrec
    | some p =>
      simp only [walkQuotes] at hok
      cases hq : q.price with
      | none => rw [hq] at hok; cases hok
      | some c =>
        rw [hq] at hok
        simp only at hok
        by_cases hp : p = 0
        · rw [if_pos hp] at hok; cases hok
        · rw [if_neg hp] at hok
          cases hrec : walkQuotes (some c) rest with
          | error e => rw [hrec] at hok; cases hok
          | ok ps1 =>
            rw [hrec] at hok
            have := (Except.ok.inj hok).symm
            subst this
            simpa using ih (some c) ps1 hrec

/-- Shape of a successful walk over quotes whose prices are all numeric:
the output prices are the input prices, consecutive points satisfy
`pctRel`, and the head's `percent_change` is `0` when `prev_price` started
as `None`, and the rounded relative change from `prev` otherwise. -/
theorem walk_ok_shape (l : List Quote) : ∀ (prev : Option ℚ) (ps : List PricePoint),
    (∀ q ∈ l, q.price.isSome) → walkQuotes prev l = Except.ok ps →
    ps.map PricePoint.price = l.map Quote.price ∧
    List.Chain' pctRel ps ∧
    ∀ hne : ps ≠ [],
      (ps.head hne).percent_change =
        (match prev with
         | none => 0
         | some p => round2 (((ps.head hne).price.getD 0 - p) / p * 100)) := by
  induction l with
  | nil =>
    intro prev ps _ hok
    have hps : ps = [] := by
      cases prev <;> simp only [walkQuotes] at hok <;>
        exact (Except.ok.inj hok).symm
    subst hps
    refine ⟨by simp, by simp, ?_⟩
    intro hne; exact absurd rfl hne
  | cons q rest ih =>
    intro prev ps hall hok
    have hq : q.price.isSome := hall q (by simp)
    obtain ⟨c, hc⟩ := Option.isSome_iff_exists.mp hq
    have hall1 : ∀ x ∈ rest, x.price.isSome := by
      intro x hx; exact hall x (by simp [hx])
    cases prev with
    | none =>
      simp only [walkQuotes] at hok
      cases hrec : walkQuotes q.price rest with
      | error e => rw [hrec] at hok; cases hok
      | ok ps1 =>
        rw [hrec] at hok
        have := (Except.ok.inj hok).symm
        subst this
        obtain ⟨hmap, hchain, hhead⟩ := ih q.price ps1 hall1 hrec
        refine ⟨by simpa using hmap, ?_, ?_⟩
        · rw [List.chain'_cons']
          refine ⟨?_, hchain⟩
          intro b hb
          cases ps1 with
          | nil => simp at hb
          | cons b0 tl =>
            simp only [List.head?_cons, Option.mem_def, Option.some.injEq] at hb
            subst hb
            have := hhead (by simp)
            rw [hc] at this
            simp only [List.head_cons] at this
            simpa [pctRel, hc] using this
        · intro _; simp
    | some p =>
      simp only [walkQuotes] at hok
      rw [hc] at hok
      simp only at hok
      by_cases hp : p = 0
      · rw [if_pos hp] at hok; cases hok
      · rw [if_neg hp] at hok
        cases hrec : walkQuotes (some c) rest with
        | error e => rw [hrec] at hok; cases hok
        | ok ps1 =>
          rw [hrec] at hok
          have := (Except.ok.inj hok).symm
          subst this
          obtain ⟨hmap, hchain, hhead⟩ := ih (some c) ps1 hall1 hrec
          refine ⟨by simpa [hc] using hmap, ?_, ?_⟩
          · rw [List.chain'_cons']
            refine ⟨?_, hchain⟩
            intro b hb
            cases ps1 with
            | nil => simp at hb
            | cons b0 tl =>
              simp only [List.head?_cons, Option.mem_def, Option.some.injEq] at hb
              subst hb
              have := hhead (by simp)
              simp only [List.head_cons] at this
              simpa [pctRel] using this
          · intro _; simp

/-- Claim C2: for a non-empty series returned by the percent-change walk
of the historical endpoints (all raw prices numeric), the first point's
`percent_change` is `0` and every later point's `percent_change` is
`round((p_i - p_im1) / p_im1 * 100, 2)` over the surviving prices in
sorted-timestamp order. -/
theorem percent_change_recurrence (qs : List Quote) (ps : List PricePoint)
    (hall : ∀ q ∈ qs, q.price.isSome)
    (hok : processQuotes qs = Except.ok ps) (hne : ps ≠ []) :
    (ps.head hne).percent_change = 0 ∧
    ∀ (i : ℕ) (hi : i + 1 < ps.length),
      (ps.get ⟨i + 1, hi⟩).percent_change =
        round2 (((ps.get ⟨i + 1, hi⟩).price.getD 0 -
                 (ps.get ⟨i, by omega⟩).price.getD 0) /
                (ps.get ⟨i, by omega⟩).price.getD 0 * 100) := by
  have hall2 : ∀ q ∈ sortQuotes qs, q.price.isSome := by
    intro q hq
    exact hall q ((List.perm_insertionSort tsLE qs).mem_iff.mp hq)
  obtain ⟨_, hchain, hhead⟩ := walk_ok_shape (sortQuotes qs) none ps hall2 hok
  refine ⟨by simpa using hhead hne, ?_⟩
  intro i hi
  exact List.chain'_iff_get.mp hchain i (by omega)

/-- Witness for C2 at the concrete input `[(t=1, p=2), (t=2, p=4)]`, whose
normalization is `[(1, 2, 0%), (2, 4, 100%)]`. -/
theorem percent_change_recurrence_witness :
    processQuotes [⟨1, some 2⟩, ⟨2, some 4⟩] =
      Except.ok [⟨1, some 2, 0⟩, ⟨2, some 4, 100⟩] ∧
    (([⟨1, some 2, 0⟩, ⟨2, some 4, 100⟩] : List PricePoint).head (by simp)).percent_change = 0 := by
  have hok : processQuotes [⟨1, some 2⟩, ⟨2, some 4⟩] =
      Except.ok [⟨1, some 2, 0⟩, ⟨2, some 4, 100⟩] := by
    show walkQuotes none (sortQuotes [⟨1, some 2⟩, ⟨2, some 4⟩]) = _
    have hsort : sortQuotes [⟨1, some 2⟩, ⟨2, some 4⟩] = [⟨1, some 2⟩, ⟨2, some 4⟩] := by
      simp only [sortQuotes, List.insertionSort, List.orderedInsert]
      rw [if_pos (by norm_num [tsLE])]
    rw [hsort]
    simp only [walkQuotes]
    norm_num [round2, pyRound]
  refine ⟨hok, ?_⟩
  exact (percent_change_recurrence [⟨1, some 2⟩, ⟨2, some 4⟩]
    [⟨1, some 2, 0⟩, ⟨2, some 4, 100⟩] (by simp) hok (by simp)).1

/-- Claim C9: every series produced by the historical operations is
non-decreasing in timestamp — both the percent-change walk of the token
endpoints and the response of the category-historical endpoint. -/
theorem series_timestamps_sorted :
    (∀ (qs : List Quote) (ps : List PricePoint), processQuotes qs = Except.ok ps →
      ps.Pairwise (fun a b => a.timestamp ≤ b.timestamp)) ∧
    (∀ (category_id : String) (days : ℤ) (now : ℚ) (categories : List Category)
       (store : List StoredPoint) (provider : Except ℕ (List (ℤ × PointValues)))
       (r : CatHistOutcome),
       get_category_historical category_id days now categories store provider =
         Except.ok r →
       r.response.Pairwise spLE) := by
  constructor
  · intro qs ps hok
    have hmap := walk_map_timestamp (sortQuotes qs) none ps hok
    have hsorted : (sortQuotes qs).Pairwise tsLE :=
      List.sorted_insertionSort tsLE qs
    have h1 : ((sortQuotes qs).map Quote.timestamp).Pairwise (· ≤ ·) := by
      rw [List.pairwise_map]
      exact hsorted
    rw [← hmap, List.pairwise_map] at h1
    exact h1
  · intro cid days now cats store prov r hok
    unfold get_category_historical at hok
    cases hfind : cats.find? (fun c => c.id == cid) with
    | none => rw [hfind] at hok; cases hok
    | some c =>
      rw [hfind] at hok
      simp only at hok
      by_cases hcached : (store.filter (freshPred cid now)).isEmpty
      · rw [if_pos hcached] at hok
        cases prov with
        | error code => cases hok
        | ok points =>
          simp only at hok
          by_cases hpts : points.isEmpty
          · rw [if_pos hpts] at hok; cases hok
          · rw [if_neg hpts] at hok
            by_cases hproc : (points.filterMap (processPoint cid)).isEmpty
            · rw [if_pos hproc] at hok
              have := (Except.ok.inj hok)
              subst this
              exact List.sorted_insertionSort spLE _
            · rw [if_neg hproc] at hok
              have := (Except.ok.inj hok)
              subst this
              exact List.sorted_insertionSort spLE _
      · rw [if_neg hcached] at hok
        have := (Except.ok.inj hok)
        subst this
        exact List.sorted_insertionSort spLE _

/-- Witness for C9 at concrete inputs: a token series and a category
response obtained from a fresh persisted point. -/
theorem series_timestamps_sorted_witness :
    ([⟨1, some 2, 0⟩, ⟨2, some 4, 100⟩] : List PricePoint).Pairwise
      (fun a b => a.timestamp ≤ b.timestamp) ∧
    (CatHistOutcome.mk [⟨"5", 9000, 7, 8, 0, 0⟩] [⟨"5", 9000, 7, 8, 0, 0⟩] 0).response.Pairwise spLE := by
  constructor
  · apply series_timestamps_sorted.1 [⟨1, some 2⟩, ⟨2, some 4⟩]
    have hsort : sortQuotes [⟨1, some 2⟩, ⟨2, some 4⟩] = [⟨1, some 2⟩, ⟨2, some 4⟩] := by
      simp only [sortQuotes, List.insertionSort, List.orderedInsert]
      rw [if_pos (by norm_num [tsLE])]
    show walkQuotes none (sortQuotes [⟨1, some 2⟩, ⟨2, some 4⟩]) = _
    rw [hsort]
    simp only [walkQuotes]
    norm_num [round2, pyRound]
  · apply series_timestamps_sorted.2 "5" 30 9600 [⟨"5", "memes"⟩]
      [⟨"5", 9000, 7, 8, 0, 0⟩] (Except.ok [])
    unfold get_category_historical
    norm_num [freshPred, List.filter, List.insertionSort, List.orderedInsert]

/-- Counterexample to claim C3: on a series whose previous surviving price
is `0`, the walk does not skip the point and continue — the division by
zero raises and the error propagates out of the whole operation. -/
theorem zero_prev_price_counterexample :
    processQuotes [⟨1, some 0⟩, ⟨2, some 5⟩] = Except.error "ZeroDivisionError" := by
  show walkQuotes none (sortQuotes [⟨1, some 0⟩, ⟨2, some 5⟩]) = _
  have hsort : sortQuotes [⟨1, some 0⟩, ⟨2, some 5⟩] = [⟨1, some 0⟩, ⟨2, some 5⟩] := by
    simp only [sortQuotes, List.insertionSort, List.orderedInsert]
    rw [if_pos (by norm_num [tsLE])]
  rw [hsort]
  simp [walkQuotes]

/-- Claim C3 amended: when the running `prev_price` is `0` and the current
point has a numeric price, the walk raises `ZeroDivisionError` — the point
is not skipped, the whole walk aborts (so no infinity or NaN is ever
produced, but the error does propagate out of the operation). -/
theorem zero_prev_price_raises (q : Quote) (rest : List Quote) (c : ℚ)
    (hq : q.price = some c) :
    walkQuotes (some 0) (q :: rest) = Except.error "ZeroDivisionError" := by
  simp [walkQuotes, hq]

/-- Witness for the amended C3 at a concrete quote. -/
theorem zero_prev_price_raises_witness :
    walkQuotes (some 0) [⟨2, some 5⟩] = Except.error "ZeroDivisionError" :=
  zero_prev_price_raises ⟨2, some 5⟩ [] 5 rfl

/-- Counterexample to claim C5: the end-to-end example of the spec fails on
the code.  The normalization walk performs no discard step, so the `null`
price at `t = 2` is not dropped: it makes the loop raise (`None` minus a
float), and the request errors instead of returning the two-point series. -/
theorem normalize_example_counterexample :
    processQuotes [⟨3, some 100⟩, ⟨1, some 90⟩, ⟨2, none⟩] = Except.error "TypeError" ∧
    processQuotes [⟨3, some 100⟩, ⟨1, some 90⟩, ⟨2, none⟩] ≠
      Except.ok [⟨1, some 90, 0⟩, ⟨3, some 100, 1111 / 100⟩] := by
  have hsort : sortQuotes [⟨3, some 100⟩, ⟨1, some 90⟩, ⟨2, none⟩] =
      [⟨1, some 90⟩, ⟨2, none⟩, ⟨3, some 100⟩] := by
    simp only [sortQuotes, List.insertionSort, List.orderedInsert]
    norm_num [tsLE]
  have herr : processQuotes [⟨3, some 100⟩, ⟨1, some 90⟩, ⟨2, none⟩] =
      Except.error "TypeError" := by
    show walkQuotes none (sortQuotes [⟨3, some 100⟩, ⟨1, some 90⟩, ⟨2, none⟩]) = _
    rw [hsort]
    simp [walkQuotes]
  refine ⟨herr, ?_⟩
  rw [herr]
  simp

/-- Claim C5 amended: the percent-change normalization performs only the
sort and percent-change steps — sort ascending by timestamp, first
surviving point gets `percent_change = 0`, later points get the rounded
relative change — and performs no discard step: an entry with a `null`
price makes the walk raise instead of being dropped.  With the `null`
point removed, the spec's example normalizes as stated. -/
theorem normalize_steps_amended :
    processQuotes [⟨3, some 100⟩, ⟨1, some 90⟩, ⟨2, none⟩] = Except.error "TypeError" ∧
    processQuotes [⟨3, some 100⟩, ⟨1, some 90⟩] =
      Except.ok [⟨1, some 90, 0⟩, ⟨3, some 100, 1111 / 100⟩] := by
  constructor
  · have hsort : sortQuotes [⟨3, some 100⟩, ⟨1, some 90⟩, ⟨2, none⟩] =
        [⟨1, some 90⟩, ⟨2, none⟩, ⟨3, some 100⟩] := by
      simp only [sortQuotes, List.insertionSort, List.orderedInsert]
      norm_num [tsLE]
    show walkQuotes none (sortQuotes [⟨3, some 100⟩, ⟨1, some 90⟩, ⟨2, none⟩]) = _
    rw [hsort]
    simp [walkQuotes]
  · have hsort : sortQuotes [⟨3, some 100⟩, ⟨1, some 90⟩] =
        [⟨1, some 90⟩, ⟨3, some 100⟩] := by
      simp only [sortQuotes, List.insertionSort, List.orderedInsert]
      norm_num [tsLE]
    show walkQuotes none (sortQuotes [⟨3, some 100⟩, ⟨1, some 90⟩]) = _
    rw [hsort]
    simp only [walkQuotes]
    norm_num [round2, pyRound]

/-- Counterexample to claim C6: the normalizer is not order-independent.
Two quotes sharing a timestamp are kept in input order by the stable sort,
so the two orderings of the same point multiset produce different series. -/
theorem order_dependence_counterexample :
    List.Perm [Quote.mk 1 (some 100), Quote.mk 1 (some 50)]
      [Quote.mk 1 (some 50), Quote.mk 1 (some 100)] ∧
    processQuotes [Quote.mk 1 (some 100), Quote.mk 1 (some 50)] =
      Except.ok [⟨1, some 100, 0⟩, ⟨1, some 50, -50⟩] ∧
    processQuotes [Quote.mk 1 (some 50), Quote.mk 1 (some 100)] =
      Except.ok [⟨1, some 50, 0⟩, ⟨1, some 100, 100⟩] ∧
    processQuotes [Quote.mk 1 (some 100), Quote.mk 1 (some 50)] ≠
      processQuotes [Quote.mk 1 (some 50), Quote.mk 1 (some 100)] := by
  have h1 : processQuotes [Quote.mk 1 (some 100), Quote.mk 1 (some 50)] =
      Except.ok [⟨1, some 100, 0⟩, ⟨1, some 50, -50⟩] := by
    have hsort : sortQuotes [Quote.mk 1 (some 100), Quote.mk 1 (some 50)] =
        [Quote.mk 1 (some 100), Quote.mk 1 (some 50)] := by
      simp only [sortQuotes, List.insertionSort, List.orderedInsert]
      rw [if_pos (by norm_num [tsLE])]
    show walkQuotes none (sortQuotes [Quote.mk 1 (some 100), Quote.mk 1 (some 50)]) = _
    rw [hsort]
    simp only [walkQuotes]
    norm_num [round2, pyRound]
  have h2 : processQuotes [Quote.mk 1 (some 50), Quote.mk 1 (some 100)] =
      Except.ok [⟨1, some 50, 0⟩, ⟨1, some 100, 100⟩] := by
    have hsort : sortQuotes [Quote.mk 1 (some 50), Quote.mk 1 (some 100)] =
        [Quote.mk 1 (some 50), Quote.mk 1 (some 100)] := by
      simp only [sortQuotes, List.insertionSort, List.orderedInsert]
      rw [if_pos (by norm_num [tsLE])]
    show walkQuotes none (sortQuotes [Quote.mk 1 (some 50), Quote.mk 1 (some 100)]) = _
    rw [hsort]
    simp only [walkQuotes]
    norm_num [round2, pyRound]
  refine ⟨by decide, h1, h2, ?_⟩
  rw [h1, h2]
  simp only [ne_eq, Except.ok.injEq]
  decide

/-- Claim C6 amended: the normalizer is order-independent on point
multisets with pairwise distinct timestamps — for such inputs, any two
orderings of the same multiset produce identical output. -/
theorem normalize_order_independent (l1 l2 : List Quote) (hperm : l1.Perm l2)
    (hnodup : (l1.map Quote.timestamp).Nodup) :
    processQuotes l1 = processQuotes l2 := by
  have hs : sortQuotes l1 = sortQuotes l2 := by
    have hp : (sortQuotes l1).Perm (sortQuotes l2) :=
      ((List.perm_insertionSort tsLE l1).trans hperm).trans
        (List.perm_insertionSort tsLE l2).symm
    have hnd1 : ((sortQuotes l1).map Quote.timestamp).Nodup :=
      (((List.perm_insertionSort tsLE l1).map Quote.timestamp).symm).nodup hnodup
    have hnd2 : ((sortQuotes l2).map Quote.timestamp).Nodup :=
      (((List.perm_insertionSort tsLE l2).map Quote.timestamp).symm).nodup
        ((hperm.map Quote.timestamp).nodup hnodup)
    have hlt1 : (sortQuotes l1).Pairwise tsLT := by
      have hand := (List.sorted_insertionSort tsLE l1).and
        (List.pairwise_map.mp hnd1)
      exact hand.imp (fun hab => lt_of_le_of_ne hab.1 hab.2)
    have hlt2 : (sortQuotes l2).Pairwise tsLT := by
      have hand := (List.sorted_insertionSort tsLE l2).and
        (List.pairwise_map.mp hnd2)
      exact hand.imp (fun hab => lt_of_le_of_ne hab.1 hab.2)
    exact List.eq_of_perm_of_sorted hp hlt1 hlt2
  unfold processQuotes
  rw [hs]

/-- Witness for the amended C6 on a two-point multiset with distinct
timestamps, fed in both orders. -/
theorem normalize_order_independent_witness :
    processQuotes [Quote.mk 2 (some 4), Quote.mk 1 (some 2)] =
      processQuotes [Quote.mk 1 (some 2), Quote.mk 2 (some 4)] :=
  normalize_order_independent [Quote.mk 2 (some 4), Quote.mk 1 (some 2)]
    [Quote.mk 1 (some 2), Quote.mk 2 (some 4)] (by decide) (by decide)

/-- Effect of the per-batch loop over a list of batches: the result grows
by the pairs of the successful batches in order, one permit is acquired per
batch, and every batch is attempted. -/
theorem runBatch_foldl (provider : List ℤ → Except Unit (List (ℤ × TokenInfo)))
    (bs : List (List ℤ)) : ∀ st : FetchState,
    ((bs.foldl (runBatch provider) st).result =
      st.result ++ (bs.filterMap (fun b => (provider b).toOption)).flatten) ∧
    (bs.foldl (runBatch provider) st).permits = st.permits + bs.length ∧
    (bs.foldl (runBatch provider) st).calls = st.calls ++ bs := by
  induction bs with
  | nil => intro st; simp
  | cons b bs ih =>
    intro st
    simp only [List.foldl_cons, List.filterMap_cons, List.length_cons]
    obtain ⟨h1, h2, h3⟩ := ih (runBatch provider st b)
    cases hb : provider b with
    | error e =>
      have hr : runBatch provider st b =
          { st with permits := st.permits + 1, calls := st.calls ++ [b] } := by
        simp [runBatch, hb]
      rw [hr] at h1 h2 h3 ⊢
      refine ⟨?_, ?_, ?_⟩
      · rw [h1]
        show st.result ++ _ = _
        simp [Except.toOption]
      · rw [h2]
        show st.permits + 1 + bs.length = st.permits + (bs.length + 1)
        omega
      · rw [h3]
        show (st.calls ++ [b]) ++ bs = st.calls ++ b :: bs
        simp
    | ok pairs =>
      have hr : runBatch provider st b =
          { result := st.result ++ pairs, cache := pairs ++ st.cache,
            permits := st.permits + 1, calls := st.calls ++ [b] } := by
        simp [runBatch, hb]
      rw [hr] at h1 h2 h3 ⊢
      refine ⟨?_, ?_, ?_⟩
      · rw [h1]
        show (st.result ++ pairs) ++ _ = _
        simp [Except.toOption]
      · rw [h2]
        show st.permits + 1 + bs.length = st.permits + (bs.length + 1)
        omega
      · rw [h3]
        show (st.calls ++ [b]) ++ bs = st.calls ++ b :: bs
        simp

/-- Claim C4: `batch_get_token_info` never fails: it returns the cache hits
of the request followed by exactly the pairs of the successful provider
batches, silently omitting the ids of failed batches; in particular
requesting `{1, 2, 3}` with `1` cached and the `{2, 3}` batch failing
returns only the cached pair for `1`. -/
theorem batch_tolerates_errors :
    (∀ (token_ids : List ℤ) (cache : List (ℤ × TokenInfo))
       (provider : List ℤ → Except Unit (List (ℤ × TokenInfo))),
      (batch_get_token_info token_ids cache provider).result =
        cachedHits token_ids cache ++
        ((chunk 100 (uncachedIds token_ids cache)).filterMap
          (fun b => (provider b).toOption)).flatten) ∧
    (batch_get_token_info [1, 2, 3] [(1, ⟨"BTC", "Bitcoin"⟩)]
        (fun b => if b = [2, 3] then Except.error () else Except.ok [])).result =
      [(1, ⟨"BTC", "Bitcoin"⟩)] := by
  constructor
  · intro token_ids cache provider
    unfold batch_get_token_info
    by_cases hemp : token_ids.isEmpty
    · have h0 : token_ids = [] := List.isEmpty_iff.mp hemp
      subst h0
      simp [cachedHits, uncachedIds, chunk, chunkAux]
    · rw [if_neg hemp]
      simp only
      by_cases hunc : (uncachedIds token_ids cache).isEmpty
      · have h0 : uncachedIds token_ids cache = [] := List.isEmpty_iff.mp hunc
        rw [if_pos hunc, h0]
        simp [chunk, chunkAux]
      · rw [if_neg hunc]
        exact (runBatch_foldl provider (chunk 100 (uncachedIds token_ids cache))
          ⟨cachedHits token_ids cache, cache, 0, []⟩).1
  · decide

/-- Claim C10: an empty request, or a request whose every id is cached,
returns the cache hits without acquiring a rate-limiter permit, without
issuing a provider call, and without touching the cache. -/
theorem batch_no_call_when_cached (token_ids : List ℤ) (cache : List (ℤ × TokenInfo))
    (provider : List ℤ → Except Unit (List (ℤ × TokenInfo)))
    (h : token_ids = [] ∨ ∀ i ∈ token_ids, (cache.lookup i).isSome) :
    (batch_get_token_info token_ids cache provider).permits = 0 ∧
    (batch_get_token_info token_ids cache provider).calls = [] ∧
    (batch_get_token_info token_ids cache provider).cache = cache ∧
    (batch_get_token_info token_ids cache provider).result =
      cachedHits token_ids cache := by
  by_cases hemp : token_ids.isEmpty
  · have h0 : token_ids = [] := List.isEmpty_iff.mp hemp
    subst h0
    simp [batch_get_token_info, cachedHits]
  · cases h with
    | inl h0 => exact absurd (h0 ▸ rfl) hemp
    | inr hall =>
      have hunc : uncachedIds token_ids cache = [] := by
        unfold uncachedIds
        rw [List.filter_eq_nil_iff]
        intro i hi
        have := hall i hi
        simp only [Option.isNone_iff_eq_none]
        intro hc
        rw [hc] at this
        cases this
      unfold batch_get_token_info
      rw [if_neg hemp]
      simp only [hunc, List.isEmpty_nil, if_true]
      exact ⟨trivial, trivial, trivial, trivial⟩

/-- Witness for C10 at a concrete fully-cached request. -/
theorem batch_no_call_when_cached_witness :
    (batch_get_token_info [1] [(1, ⟨"BTC", "Bitcoin"⟩)]
      (fun _ => Except.error ())).permits = 0 ∧
    (batch_get_token_info [1] [(1, ⟨"BTC", "Bitcoin"⟩)]
      (fun _ => Except.error ())).calls = [] ∧
    (batch_get_token_info [1] [(1, ⟨"BTC", "Bitcoin"⟩)]
      (fun _ => Except.error ())).cache = [(1, ⟨"BTC", "Bitcoin"⟩)] ∧
    (batch_get_token_info [1] [(1, ⟨"BTC", "Bitcoin"⟩)]
      (fun _ => Except.error ())).result = cachedHits [1] [(1, ⟨"BTC", "Bitcoin"⟩)] :=
  batch_no_call_when_cached [1] [(1, ⟨"BTC", "Bitcoin"⟩)] (fun _ => Except.error ())
    (Or.inr (by decide))

/-- Claim C7: category resolution is case-insensitive — the request
`"Memes"` resolves a category stored as `"memes"` — and a name matching no
category (after lower-casing both sides) fails with 404, not any other
error kind. -/
theorem category_resolution (cache : List (String × Category)) (cats : List Category)
    (c : Category) (name : String) :
    (cats.find? (fun cat => pyLower cat.name == "memes") = some c →
      resolveCategory "Memes" [] cats = Except.ok c) ∧
    (cache.lookup (pyLower name) = none →
      (∀ cat ∈ cats, pyLower cat.name ≠ pyLower name) →
      resolveCategory name cache cats = Except.error 404) := by
  constructor
  · intro hfind
    unfold resolveCategory
    have hm : pyLower "Memes" = "memes" := by decide
    rw [hm, List.lookup_nil]
    rw [hfind]
  · intro hlk hno
    unfold resolveCategory
    rw [hlk]
    have hfind : cats.find? (fun cat => pyLower cat.name == pyLower name) = none := by
      rw [List.find?_eq_none]
      intro x hx
      simpa using hno x hx
    rw [hfind]

/-- Witness for C7: `"Memes"` resolves the stored category `"memes"`, and
an unknown name resolves to a 404. -/
theorem category_resolution_witness :
    resolveCategory "Memes" [] [⟨"1", "memes"⟩] = Except.ok ⟨"1", "memes"⟩ ∧
    resolveCategory "unknown" [] [⟨"1", "memes"⟩] = Except.error 404 :=
  ⟨(category_resolution [] [⟨"1", "memes"⟩] ⟨"1", "memes"⟩ "unknown").1 (by decide),
   (category_resolution [] [⟨"1", "memes"⟩] ⟨"1", "memes"⟩ "unknown").2 rfl (by decide)⟩

/-- Claim C8: when the document store holds points for the category no
older than one hour, `get_category_historical` returns them (sorted)
without any provider call and without touching the store; only on a
freshness miss does it make one provider call, normalize the points, and
replace the persisted window before returning. -/
theorem category_historical_freshness (category_id : String) (days : ℤ) (now : ℚ)
    (categories : List Category) (store : List StoredPoint)
    (provider : Except ℕ (List (ℤ × PointValues))) (c : Category)
    (hcat : categories.find? (fun cat => cat.id == category_id) = some c) :
    (store.filter (freshPred category_id now) ≠ [] →
      get_category_historical category_id days now categories store provider =
        Except.ok ⟨List.insertionSort spLE (store.filter (freshPred category_id now)),
                   store, 0⟩) ∧
    (∀ points, store.filter (freshPred category_id now) = [] →
      provider = Except.ok points → points ≠ [] →
      points.filterMap (processPoint category_id) ≠ [] →
      get_category_historical category_id days now categories store provider =
        Except.ok ⟨List.insertionSort spLE (points.filterMap (processPoint category_id)),
                   store.filter (fun d => !(windowPred category_id days now d)) ++
                     List.insertionSort spLE (points.filterMap (processPoint category_id)),
                   1⟩) := by
  constructor
  · intro hfresh
    have hb : (store.filter (freshPred category_id now)).isEmpty = false := by
      simp [List.isEmpty_eq_false, hfresh]
    simp [get_category_historical, hcat, hb]
  · intro points hfresh hprov hpts hproc
    have hfb : (store.filter (freshPred category_id now)).isEmpty = true := by
      simp [List.isEmpty_iff, hfresh]
    have hpb : points.isEmpty = false := by
      simp [List.isEmpty_eq_false, hpts]
    have hprb : (points.filterMap (processPoint category_id)).isEmpty = false := by
      simp [List.isEmpty_eq_false, hproc]
    simp [get_category_historical, hcat, hprov, hfb, hpb, hprb]

/-- Witness for C8 at a concrete fresh-hit state: one persisted point ten
minutes old is returned with zero provider calls and an unchanged store. -/
theorem category_historical_freshness_witness :
    get_category_historical "5" 30 9600 [⟨"5", "memes"⟩] [⟨"5", 9000, 7, 8, 0, 0⟩]
        (Except.ok []) =
      Except.ok ⟨List.insertionSort spLE
                   (List.filter (freshPred "5" 9600) [⟨"5", 9000, 7, 8, 0, 0⟩]),
                 [⟨"5", 9000, 7, 8, 0, 0⟩], 0⟩ :=
  (category_historical_freshness "5" 30 9600 [⟨"5", "memes"⟩] [⟨"5", 9000, 7, 8, 0, 0⟩]
    (Except.ok []) ⟨"5", "memes"⟩ rfl).1
    (by norm_num [freshPred, List.filter])

end Rotator
